import Mathlib

/-!
Shallow embedding of the InfiAgent core excerpts:
* `core/hierarchy_manager.py` — `HierarchyManager.push_agent`, `pop_agent`,
  `update_thinking`, modelled as pure functions on a `Registry` record whose
  JSON-file-backed dicts become insertion-ordered association lists (matching
  Python `dict` update-in-place / append-new semantics).
* `core/agent_executor.py` — `AgentExecutor.run`, modelled as a fuel-indexed
  loop over an environment script that supplies, per turn, either the batch of
  tool calls (with their executor results) returned by the forced-tool-use LLM
  call, or an exception raised inside the turn body; the thinking module
  (`_trigger_thinking`) is an oracle returning `Option String`, where `none`
  stands for a Python-falsy result (the code guards every use with
  `if thinking_result:`).
Wall-clock fields (`start_time`, `thinking_updated_at`) and the durable-file
round trip (`_load_stack`/`_save_stack` inside one lock) are not observable in
the serialized semantics and are omitted.
-/

namespace InfiAgent

/-- Lookup in an insertion-ordered association list (Python `dict` read). -/
def alistGet? {α : Type} (k : String) : List (String × α) → Option α
  | [] => none
  | (k', v) :: rest => if k' = k then some v else alistGet? k rest

/-- Update-in-place if the key exists, else append (Python `dict` write). -/
def alistSet {α : Type} (k : String) (v : α) : List (String × α) → List (String × α)
  | [] => [(k, v)]
  | (k', v') :: rest => if k' = k then (k, v) :: rest else (k', v') :: alistSet k v rest

/-- Python `key in dict`. -/
def alistHas {α : Type} (k : String) (l : List (String × α)) : Bool :=
  (alistGet? k l).isSome

/-- One stack entry, as built in `push_agent` (the `agent_entry` dict);
`start_time` is wall clock and omitted. -/
structure StackEntry where
  agent_id : String
  agent_name : String
  parent_id : Option String
  level : Nat
  user_input : String
deriving DecidableEq

/-- `context["current"]["hierarchy"][agent_id]` — permanent ancestry record. -/
structure HierarchyEdge where
  parent : Option String
  children : List String
  level : Nat
deriving DecidableEq

/-- `context["current"]["agents_status"][agent_id]`; `latest_thinking` keeps only the
newest consolidation text, `final_output` is set by `pop_agent`. -/
structure AgentStatus where
  agent_name : String
  status : String
  initial_input : String
  parent_id : Option String
  level : Nat
  latest_thinking : String
  final_output : Option String
deriving DecidableEq

/-- The durable state a `HierarchyManager(task_id)` instance serializes:
the stack document and the shared-context document. -/
structure Registry where
  task_id : String
  stack : List StackEntry
  hierarchy : List (String × HierarchyEdge)
  agents_status : List (String × AgentStatus)
deriving DecidableEq

/-- `agent_id = agent_name + "_" + md5(agent_name + "|" + task_id + "|" + user_input)[:12]`.
The digest itself is an opaque parameter `hash` (any function of the string);
the truncation to 12 hex characters and the concatenation are kept. -/
def agentIdOf (hash : String → String) (task_id agent_name user_input : String) : String :=
  agent_name ++ "_" ++ ((hash (agent_name ++ "|" ++ task_id ++ "|" ++ user_input)).take 12)

/-- `HierarchyManager.push_agent`, body executed under `self.lock`:
compute the content-hash id; take the current stack top as parent (level top+1,
else root/level 0); append the stack entry; create the `HierarchyEdge` only if
the id is new; append the id to the parent's `children` unless already present
(`parent_id` truthy in Python means `some`, ids are never the empty string);
finally overwrite `agents_status[agent_id]` with a fresh running record. -/
def pushAgent (hash : String → String) (agent_name user_input : String) (s : Registry) :
    String × Registry :=
  let agent_id := agentIdOf hash s.task_id agent_name user_input
  let parent_id : Option String := (s.stack.getLast?).map (·.agent_id)
  let level : Nat :=
    match s.stack.getLast? with
    | none => 0
    | some top => top.level + 1
  let entry : StackEntry :=
    { agent_id := agent_id, agent_name := agent_name, parent_id := parent_id,
      level := level, user_input := user_input }
  let stack' := s.stack ++ [entry]
  let hierarchy' :=
    if alistHas agent_id s.hierarchy then s.hierarchy
    else alistSet agent_id { parent := parent_id, children := [], level := level } s.hierarchy
  let hierarchy'' :=
    match parent_id with
    | none => hierarchy'
    | some pid =>
      match alistGet? pid hierarchy' with
      | none => hierarchy'
      | some pedge =>
        if agent_id ∈ pedge.children then hierarchy'
        else alistSet pid { pedge with children := pedge.children ++ [agent_id] } hierarchy'
  let status : AgentStatus :=
    { agent_name := agent_name, status := "running", initial_input := user_input,
      parent_id := parent_id, level := level, latest_thinking := "", final_output := none }
  (agent_id,
   { s with stack := stack', hierarchy := hierarchy'',
            agents_status := alistSet agent_id status s.agents_status })

/-- `HierarchyManager.pop_agent`: remove every stack entry with this id; if a
status record exists, mark it completed and record the final output. The
trailing `_check_and_complete_if_all_done` only derives task-level completion
("exact downstream effect is an external concern") and mutates none of the
modelled fields. -/
def popAgent (agent_id final_output : String) (s : Registry) : Registry :=
  let stack' := s.stack.filter (fun e => e.agent_id ≠ agent_id)
  let agents_status' :=
    match alistGet? agent_id s.agents_status with
    | none => s.agents_status
    | some st =>
      let st' : AgentStatus := { st with status := "completed", final_output := some final_output }
      alistSet agent_id st' s.agents_status
  { s with stack := stack', agents_status := agents_status' }

/-- `HierarchyManager.update_thinking`: overwrite `latest_thinking` when the id
is known, silently ignore unknown ids. -/
def updateThinking (agent_id thinking : String) (s : Registry) : Registry :=
  match alistGet? agent_id s.agents_status with
  | none => s
  | some st =>
    let st' : AgentStatus := { st with latest_thinking := thinking }
    { s with agents_status := alistSet agent_id st' s.agents_status }

/-- An empty registry for a task (`_initialize_files` with no prior documents). -/
def emptyReg (task_id : String) : Registry :=
  { task_id := task_id, stack := [], hierarchy := [], agents_status := [] }

/-! ## Agent executor (`core/agent_executor.py`, `AgentExecutor.run`) -/

/-- A tool-executor result dict. Only the `"status"` and `"output"` keys are
ever read by the loop (`tool_result.get("output", "")`); `extra` stands for the
rest of the payload so that distinct results stay distinguishable. -/
structure ToolRes where
  status : Option String
  output : Option String
  extra : String
deriving DecidableEq

/-- `tool_result.get("output", "")`. -/
def ToolRes.getOutput (r : ToolRes) : String := r.output.getD ""

/-- One `tool_call` from the LLM response together with the result the external
tool executor produces for it (`self.tool_executor.execute(...)`, scripted). -/
structure ToolCall where
  name : String
  arguments : String
  result : ToolRes
deriving DecidableEq

/-- The `action_record` dict appended to both histories. -/
structure ActionRecord where
  tool_name : String
  arguments : String
  result : ToolRes
deriving DecidableEq

def recordOf (c : ToolCall) : ActionRecord :=
  { tool_name := c.name, arguments := c.arguments, result := c.result }

/-- What one iteration of the `try:` body observes from the outside world:
either the batch of tool calls obtained from the forced-tool-use LLM call
(each already paired with its executor result), or an exception raised inside
the turn. -/
inductive TurnEvent where
  | fault (msg : String)
  | batch (calls : List ToolCall)

/-- The external collaborators, as a deterministic script: `turns t` is what
turn `t` observes, `thinking k` is the result of the `k`-th call to
`_trigger_thinking` (`none` models a Python-falsy result, which every caller
guards with `if thinking_result:`). -/
structure Env where
  turns : Nat → TurnEvent
  thinking : Nat → Option String

/-- The mutable fields of `AgentExecutor` that `run` touches, plus the registry
it calls into. `render` is `self.action_history` (cleared on consolidation),
`fact` is `self.action_history_fact` (never cleared), `counter` is
`self.tool_call_counter`. `thinkCount` counts `_trigger_thinking` calls (the
oracle cursor); `lastConsolidated` is the last-consolidated-boundary marker of
the spec-modelled `_compress_action_history_if_needed`. -/
structure ExecState where
  agent_id : String
  counter : Nat
  render : List ActionRecord
  fact : List ActionRecord
  latest_thinking : Option String
  thinkCount : Nat
  lastConsolidated : Option Nat
  reg : Registry
deriving DecidableEq

/-- The structured values `run` can return: the terminal tool's result dict
verbatim, the synthesized `error_result` dict with keys `status`/`output`, or
the `timeout_result` dict with keys `status`/`output`/`error_information`. -/
inductive RunOutcome where
  | completed (r : ToolRes)
  | failed (output : String)
  | timedOut (output error_information : String)
deriving DecidableEq

/-- The `"status"` key of the returned dict: both the `error_result` and the
`timeout_result` literals in the source carry `"status": "error"`. -/
def RunOutcome.statusField : RunOutcome → Option String
  | .completed r => r.status
  | .failed _ => some "error"
  | .timedOut _ _ => some "error"

/-- Python `str(error_result)` used as the `pop_agent` argument. -/
def strOfErrorResult (output : String) : String :=
  "\x7b'status': 'error', 'output': '" ++ output ++ "'\x7d"

/-- One `_trigger_thinking` call: consume the next oracle answer. -/
def triggerThinking (env : Env) (s : ExecState) : Option String × ExecState :=
  (env.thinking s.thinkCount, { s with thinkCount := s.thinkCount + 1 })

/-- The shared consolidation effect (source lines 93–100): call the thinking
module; if the result is truthy, store it in `self.latest_thinking`, publish it
via `hierarchy_manager.update_thinking`, and clear `self.action_history`.
The boundary marker is recorded for the spec-modelled deferred check. -/
def consolidateNow (env : Env) (s : ExecState) : ExecState :=
  match triggerThinking env s with
  | (none, s1) => s1
  | (some t, s1) =>
    { s1 with latest_thinking := some t,
              reg := updateThinking s1.agent_id t s1.reg,
              render := [],
              lastConsolidated := some s1.counter }

/-- Modelled from the spec: the body of `_compress_action_history_if_needed`
is not in the excerpt; per the spec, "If the running total count of executed
tool calls is a positive multiple of a fixed consolidation interval and this
multiple has not yet been consolidated, invoke the ConsolidationEngine with
the current render history; on success, publish via `update_thinking` and
reset RenderHistory to empty", with "an explicit counter value plus
last-consolidated-boundary marker" guarding re-triggering. -/
def compressIfNeeded (N : Nat) (env : Env) (s : ExecState) : ExecState :=
  if 0 < s.counter ∧ s.counter % N = 0 ∧ s.lastConsolidated ≠ some s.counter then
    consolidateNow env s
  else s

/-- The `for tool_call in llm_response.tool_calls:` body: execute, append the
record to both histories, bump the counter; on `"final_output"` pop the agent
with `tool_result.get("output", "")` and return the tool result, skipping the
rest of the batch. -/
def execBatch : List ToolCall → ExecState → ExecState × Option ToolRes
  | [], s => (s, none)
  | c :: rest, s =>
    let s' := { s with fact := s.fact ++ [recordOf c],
                       render := s.render ++ [recordOf c],
                       counter := s.counter + 1 }
    if c.name = "final_output" then
      ({ s' with reg := popAgent s'.agent_id c.result.getOutput s'.reg }, some c.result)
    else
      execBatch rest s'

/-- The post-batch check exactly as written in the source:
`if self.tool_call_counter % self.thinking_interval == 0:` (no positivity, no
boundary marker). -/
def afterBatchConsolidate (N : Nat) (env : Env) (s : ExecState) : ExecState :=
  if s.counter % N = 0 then consolidateNow env s else s

/-- One iteration of the `for turn in range(...)` loop. A `fault` event is the
`except Exception` path: synthesize `error_result` (embedding
`self.latest_thinking` when truthy), pop with `str(error_result)`, and return
it. A `batch` event runs save-state (no observable effect), the deferred
compression check, the batch, and — when no terminal tool fired — the eager
post-batch consolidation check. -/
def runTurn (N : Nat) (env : Env) (t : Nat) (s : ExecState) :
    ExecState × Option RunOutcome :=
  match env.turns t with
  | .fault _ =>
    let output :=
      match s.latest_thinking with
      | some th => "执行过程中出错\n\n目前进度:\n" ++ th
      | none => "执行过程中出错"
    ({ s with reg := popAgent s.agent_id (strOfErrorResult output) s.reg },
     some (.failed output))
  | .batch calls =>
    let s1 := compressIfNeeded N env s
    match execBatch calls s1 with
    | (s2, some r) => (s2, some (.completed r))
    | (s2, none) => (afterBatchConsolidate N env s2, none)

/-- The turn loop, fueled by the remaining turns out of `maxTurns`
(`self.max_turns`); exhausting the fuel is `range` running out, which returns
the `timeout_result` literal carrying the configured ceiling and performs no
registry pop. -/
def runLoop (N maxTurns : Nat) (env : Env) : Nat → ExecState → RunOutcome × ExecState
  | 0, s =>
    (.timedOut "执行超过最大轮次限制" ("Max turns " ++ toString maxTurns ++ " exceeded"), s)
  | fuel + 1, s =>
    match runTurn N env (maxTurns - (fuel + 1)) s with
    | (s', some out) => (out, s')
    | (s', none) => runLoop N maxTurns env fuel s'

/-- `AgentExecutor.run` for a fresh executor (`start_turn = 0`,
`first_thinking_done = False`, counter 0, both histories empty): push into the
hierarchy, run the first thinking (publish only — the render history is not
cleared here), then enter the turn loop. -/
def run (hash : String → String) (N maxTurns : Nat) (agent_name user_input : String)
    (env : Env) (reg0 : Registry) : RunOutcome × ExecState :=
  let pushed := pushAgent hash agent_name user_input reg0
  let s0 : ExecState :=
    { agent_id := pushed.1, counter := 0, render := [], fact := [],
      latest_thinking := none, thinkCount := 0, lastConsolidated := none,
      reg := pushed.2 }
  let s1 :=
    match triggerThinking env s0 with
    | (none, sa) => sa
    | (some t, sa) =>
      { sa with latest_thinking := some t, reg := updateThinking sa.agent_id t sa.reg }
  runLoop N maxTurns env maxTurns s1

/-! ## Named pieces of `push_agent` used to state lemmas about it -/

/-- The update `push_agent` performs on `context["current"]["hierarchy"]` when
creating-or-reusing the pushed agent's edge. -/
def pushEdgeCreate (aid : String) (pid : Option String) (lv : Nat)
    (h1 : List (String × HierarchyEdge)) : List (String × HierarchyEdge) :=
  if alistHas aid h1 then h1
  else alistSet aid { parent := pid, children := [], level := lv } h1

/-- The update `push_agent` performs on the parent's `children` list. -/
def pushChildAppend (aid : String) (pid : Option String)
    (h1 : List (String × HierarchyEdge)) : List (String × HierarchyEdge) :=
  match pid with
  | none => h1
  | some p =>
    match alistGet? p h1 with
    | none => h1
    | some pedge =>
      if aid ∈ pedge.children then h1
      else alistSet p { pedge with children := pedge.children ++ [aid] } h1

/-- The parent id `push_agent` picks: the current stack top. -/
def pushParentOf (s : Registry) : Option String := (s.stack.getLast?).map (·.agent_id)

/-- The level `push_agent` assigns: stack top's level plus one, else zero. -/
def pushLevelOf (s : Registry) : Nat :=
  match s.stack.getLast? with
  | none => 0
  | some top => top.level + 1

/-- No `children` list in the hierarchy document holds duplicate ids. -/
def childrenNodup (h1 : List (String × HierarchyEdge)) : Prop :=
  ∀ k e, alistGet? k h1 = some e → e.children.Nodup

/-- The histories/counter lockstep invariant of the executor. -/
def histInv (s : ExecState) : Prop :=
  s.fact.length = s.counter ∧ s.render.length ≤ s.fact.length

/-! ## Concrete scenario data used by witnesses and counterexamples -/

/-- Identity stand-in for the opaque md5 hex digest in concrete scenarios. -/
def idHash : String → String := fun z => z

def demoRes : ToolRes := { status := none, output := none, extra := "" }

def demoCall (nm : String) : ToolCall := { name := nm, arguments := "", result := demoRes }

/-- Eleven non-terminal tool calls in one batch (crosses the 10 boundary). -/
def elevenCalls : List ToolCall := (List.range 11).map (fun i => demoCall ("a" ++ toString i))

def elevenEnv : Env := { turns := fun _ => .batch elevenCalls, thinking := fun _ => some "T" }

def oneStepEnv : Env := { turns := fun _ => .batch [demoCall "step"], thinking := fun _ => none }

def faultEnv : Env := { turns := fun _ => .fault "boom", thinking := fun _ => none }

def finalRes : ToolRes := { status := some "success", output := some "answer", extra := "" }

def finalCall : ToolCall := { name := "final_output", arguments := "", result := finalRes }

def finalEnv : Env := { turns := fun _ => .batch [finalCall], thinking := fun _ => none }

def demoState : ExecState :=
  { agent_id := "a", counter := 0, render := [], fact := [], latest_thinking := none,
    thinkCount := 0, lastConsolidated := none, reg := emptyReg "t" }

def cexId : String := (pushAgent idHash "a" "x" (emptyReg "t")).1

def cexR1 : Registry := (pushAgent idHash "a" "x" (emptyReg "t")).2

def cexR2 : Registry := popAgent cexId "done" cexR1

def cexR3 : Registry := (pushAgent idHash "a" "x" cexR2).2

/-- The registry after pushing the same (name, input) twice onto an empty task. -/
def dpR2 : Registry := (pushAgent idHash "a" "x" cexR1).2

def cexStatus : AgentStatus :=
  { agent_name := "a", status := "completed", initial_input := "x", parent_id := none,
    level := 0, latest_thinking := "", final_output := some "done" }

end InfiAgent

namespace InfiAgent

/-! ## Association-list and `push_agent`/`pop_agent` characterization lemmas -/

theorem alistGet?_alistSet {α : Type} (k k' : String) (v : α) (l : List (String × α)) :
    alistGet? k' (alistSet k v l) = if k = k' then some v else alistGet? k' l := by
  induction l with
  | nil => simp [alistGet?, alistSet]
  | cons p rest ih =>
    obtain ⟨pk, pv⟩ := p
    by_cases h1 : pk = k
    · subst h1
      by_cases h2 : pk = k' <;> simp [alistSet, alistGet?, h2]
    · by_cases h2 : pk = k'
      · subst h2
        have hk : ¬ pk = k := h1
        have hk' : ¬ k = pk := fun hh => h1 hh.symm
        simp [alistSet, hk, alistGet?, hk']
      · simp [alistSet, h1, alistGet?, h2, ih]

theorem pushAgent_fst (hash : String → String) (n u : String) (s : Registry) :
    (pushAgent hash n u s).1 = agentIdOf hash s.task_id n u := rfl

theorem pushAgent_task_id (hash : String → String) (n u : String) (s : Registry) :
    (pushAgent hash n u s).2.task_id = s.task_id := rfl

theorem pushAgent_hierarchy (hash : String → String) (n u : String) (s : Registry) :
    (pushAgent hash n u s).2.hierarchy =
      pushChildAppend (agentIdOf hash s.task_id n u) (pushParentOf s)
        (pushEdgeCreate (agentIdOf hash s.task_id n u) (pushParentOf s) (pushLevelOf s)
          s.hierarchy) := rfl

theorem pushAgent_stack' (hash : String → String) (n u : String) (s : Registry) :
    (pushAgent hash n u s).2.stack =
      s.stack ++ [{ agent_id := agentIdOf hash s.task_id n u, agent_name := n,
                    parent_id := pushParentOf s, level := pushLevelOf s,
                    user_input := u }] := rfl

theorem pushAgent_agents_status (hash : String → String) (n u : String) (s : Registry) :
    (pushAgent hash n u s).2.agents_status =
      alistSet (agentIdOf hash s.task_id n u)
        { agent_name := n, status := "running", initial_input := u,
          parent_id := pushParentOf s, level := pushLevelOf s,
          latest_thinking := "", final_output := none }
        s.agents_status := rfl

theorem popAgent_agents_status (aid out : String) (s : Registry) :
    (popAgent aid out s).agents_status =
      match alistGet? aid s.agents_status with
      | none => s.agents_status
      | some st =>
        alistSet aid { st with status := "completed", final_output := some out }
          s.agents_status := rfl

theorem updateThinking_none (aid th : String) (s : Registry)
    (h : alistGet? aid s.agents_status = none) : updateThinking aid th s = s := by
  unfold updateThinking
  rw [h]

theorem updateThinking_some (aid th : String) (s : Registry) (st : AgentStatus)
    (h : alistGet? aid s.agents_status = some st) :
    updateThinking aid th s =
      { s with agents_status :=
          alistSet aid { st with latest_thinking := th } s.agents_status } := by
  unfold updateThinking
  rw [h]

theorem childrenNodup_alistSet (h1 : List (String × HierarchyEdge)) (k : String)
    (ed : HierarchyEdge) (hinv : childrenNodup h1) (hed : ed.children.Nodup) :
    childrenNodup (alistSet k ed h1) := by
  intro k' e he
  rw [alistGet?_alistSet] at he
  split at he
  · cases he; exact hed
  · exact hinv k' e he

theorem childrenNodup_pushEdgeCreate (aid : String) (pid : Option String) (lv : Nat)
    (h1 : List (String × HierarchyEdge)) (hinv : childrenNodup h1) :
    childrenNodup (pushEdgeCreate aid pid lv h1) := by
  unfold pushEdgeCreate
  split
  · exact hinv
  · exact childrenNodup_alistSet h1 aid _ hinv List.nodup_nil

theorem childrenNodup_pushChildAppend (aid : String) (pid : Option String)
    (h1 : List (String × HierarchyEdge)) (hinv : childrenNodup h1) :
    childrenNodup (pushChildAppend aid pid h1) := by
  unfold pushChildAppend
  split
  · exact hinv
  case h_2 p =>
    cases hp : alistGet? p h1 with
    | none => simpa [hp] using hinv
    | some pedge =>
      simp only [hp]
      split
      · exact hinv
      case isFalse hmem =>
        refine childrenNodup_alistSet h1 p _ hinv ?_
        have hn : pedge.children.Nodup := hinv p pedge hp
        simp [List.nodup_append, hn, hmem]

theorem pushAgent_childrenNodup (hash : String → String) (n u : String) (s : Registry)
    (h : childrenNodup s.hierarchy) : childrenNodup (pushAgent hash n u s).2.hierarchy := by
  rw [pushAgent_hierarchy]
  exact childrenNodup_pushChildAppend _ _ _ (childrenNodup_pushEdgeCreate _ _ _ _ h)

theorem getLast?_append_singleton {α : Type} (l : List α) (a : α) :
    (l ++ [a]).getLast? = some a := by
  rw [List.getLast?_append_cons]; rfl

theorem pushEdgeCreate_fresh (aid : String) (pid : Option String) (lv : Nat)
    (h1 : List (String × HierarchyEdge)) (hfresh : alistGet? aid h1 = none) :
    pushEdgeCreate aid pid lv h1 =
      alistSet aid { parent := pid, children := [], level := lv } h1 := by
  unfold pushEdgeCreate
  simp [alistHas, hfresh]

theorem pushEdgeCreate_present (aid : String) (pid : Option String) (lv : Nat)
    (h1 : List (String × HierarchyEdge)) (e : HierarchyEdge)
    (he : alistGet? aid h1 = some e) :
    pushEdgeCreate aid pid lv h1 = h1 := by
  unfold pushEdgeCreate
  simp [alistHas, he]

theorem alistGet?_pushChildAppend_self (aid : String) (pid : Option String)
    (h1 : List (String × HierarchyEdge)) (e : HierarchyEdge)
    (he : alistGet? aid h1 = some e) :
    ∃ e', alistGet? aid (pushChildAppend aid pid h1) = some e' ∧
      e'.parent = e.parent ∧ e'.level = e.level ∧
      (e'.children = e.children ∨ e'.children = e.children ++ [aid]) := by
  unfold pushChildAppend
  cases pid with
  | none => exact ⟨e, he, rfl, rfl, Or.inl rfl⟩
  | some p =>
    cases hq : alistGet? p h1 with
    | none =>
      simp only [hq]
      exact ⟨e, he, rfl, rfl, Or.inl rfl⟩
    | some pedge =>
      simp only [hq]
      by_cases hmem : aid ∈ pedge.children
      · rw [if_pos hmem]
        exact ⟨e, he, rfl, rfl, Or.inl rfl⟩
      · rw [if_neg hmem]
        by_cases hpa : p = aid
        · subst hpa
          rw [he] at hq
          cases hq
          refine ⟨{ e with children := e.children ++ [p] }, ?_, rfl, rfl, Or.inr rfl⟩
          rw [alistGet?_alistSet, if_pos rfl]
        · refine ⟨e, ?_, rfl, rfl, Or.inl rfl⟩
          rw [alistGet?_alistSet, if_neg hpa]
          exact he

theorem alistGet?_pushChildAppend_self_loop (aid : String)
    (h1 : List (String × HierarchyEdge)) (e : HierarchyEdge)
    (he : alistGet? aid h1 = some e) :
    ∃ e', alistGet? aid (pushChildAppend aid (some aid) h1) = some e' ∧
      e'.parent = e.parent ∧ e'.level = e.level ∧ aid ∈ e'.children := by
  unfold pushChildAppend
  simp only [he]
  by_cases hmem : aid ∈ e.children
  · rw [if_pos hmem]
    exact ⟨e, he, rfl, rfl, hmem⟩
  · rw [if_neg hmem]
    refine ⟨{ e with children := e.children ++ [aid] }, ?_, rfl, rfl, ?_⟩
    · rw [alistGet?_alistSet, if_pos rfl]
    · simp

end InfiAgent

namespace InfiAgent

/-! ## Executor lemmas -/

theorem execBatch_no_final (calls : List ToolCall) (s : ExecState)
    (h : ∀ c ∈ calls, c.name ≠ "final_output") :
    execBatch calls s =
      ({ s with fact := s.fact ++ calls.map recordOf,
                render := s.render ++ calls.map recordOf,
                counter := s.counter + calls.length }, none) := by
  induction calls generalizing s with
  | nil => simp [execBatch]
  | cons c rest ih =>
    have hc : ¬ c.name = "final_output" := h c (List.mem_cons_self c rest)
    rw [execBatch, if_neg hc, ih _ (fun x hx => h x (List.mem_cons_of_mem c hx))]
    simp [List.append_assoc]
    omega

theorem execBatch_final (pre rest : List ToolCall) (c : ToolCall) (s : ExecState)
    (hpre : ∀ x ∈ pre, x.name ≠ "final_output") (hc : c.name = "final_output") :
    execBatch (pre ++ c :: rest) s =
      ({ s with fact := s.fact ++ (pre ++ [c]).map recordOf,
                render := s.render ++ (pre ++ [c]).map recordOf,
                counter := s.counter + (pre.length + 1),
                reg := popAgent s.agent_id c.result.getOutput s.reg },
       some c.result) := by
  induction pre generalizing s with
  | nil =>
    simp only [List.nil_append]
    rw [execBatch, if_pos hc]
    simp
  | cons p pre' ih =>
    have hp : ¬ p.name = "final_output" := hpre p (List.mem_cons_self p pre')
    rw [List.cons_append, execBatch, if_neg hp,
      ih _ (fun x hx => hpre x (List.mem_cons_of_mem p hx))]
    simp [List.append_assoc]
    omega

theorem consolidateNow_fields (env : Env) (s : ExecState) :
    (consolidateNow env s).fact = s.fact ∧ (consolidateNow env s).counter = s.counter ∧
    ((consolidateNow env s).render = [] ∨ (consolidateNow env s).render = s.render) := by
  unfold consolidateNow triggerThinking
  cases env.thinking s.thinkCount <;> simp

theorem compressIfNeeded_fields (N : Nat) (env : Env) (s : ExecState) :
    (compressIfNeeded N env s).fact = s.fact ∧
    (compressIfNeeded N env s).counter = s.counter ∧
    ((compressIfNeeded N env s).render = [] ∨ (compressIfNeeded N env s).render = s.render) := by
  unfold compressIfNeeded
  split
  · exact consolidateNow_fields env s
  · exact ⟨rfl, rfl, Or.inr rfl⟩

theorem afterBatchConsolidate_fields (N : Nat) (env : Env) (s : ExecState) :
    (afterBatchConsolidate N env s).fact = s.fact ∧
    (afterBatchConsolidate N env s).counter = s.counter ∧
    ((afterBatchConsolidate N env s).render = [] ∨
      (afterBatchConsolidate N env s).render = s.render) := by
  unfold afterBatchConsolidate
  split
  · exact consolidateNow_fields env s
  · exact ⟨rfl, rfl, Or.inr rfl⟩

theorem afterBatchConsolidate_render_cleared (N : Nat) (env : Env) (s : ExecState)
    (tk : String) (hmod : s.counter % N = 0) (hth : env.thinking s.thinkCount = some tk) :
    (afterBatchConsolidate N env s).render = [] := by
  unfold afterBatchConsolidate
  rw [if_pos hmod]
  unfold consolidateNow triggerThinking
  rw [hth]

theorem afterBatchConsolidate_skip (N : Nat) (env : Env) (s : ExecState)
    (hmod : ¬ s.counter % N = 0) : afterBatchConsolidate N env s = s := by
  unfold afterBatchConsolidate
  rw [if_neg hmod]

theorem execBatch_growth (calls : List ToolCall) (s : ExecState) :
    ∃ ex : List ToolCall,
      (execBatch calls s).1.fact = s.fact ++ ex.map recordOf ∧
      (execBatch calls s).1.render = s.render ++ ex.map recordOf ∧
      (execBatch calls s).1.counter = s.counter + ex.length := by
  induction calls generalizing s with
  | nil => exact ⟨[], by simp [execBatch], by simp [execBatch], by simp [execBatch]⟩
  | cons c rest ih =>
    by_cases hc : c.name = "final_output"
    · refine ⟨[c], ?_, ?_, ?_⟩ <;> rw [execBatch, if_pos hc] <;> simp
    · obtain ⟨ex, h1, h2, h3⟩ := ih { s with fact := s.fact ++ [recordOf c], render := s.render ++ [recordOf c], counter := s.counter + 1 }
      refine ⟨c :: ex, ?_, ?_, ?_⟩
      · rw [execBatch, if_neg hc, h1]
        simp [List.append_assoc]
      · rw [execBatch, if_neg hc, h2]
        simp [List.append_assoc]
      · rw [execBatch, if_neg hc, h3]
        show s.counter + 1 + ex.length = s.counter + (c :: ex).length
        simp only [List.length_cons]
        omega

theorem runTurn_fault_eq (N : Nat) (env : Env) (t : Nat) (s : ExecState) (msg : String)
    (h : env.turns t = .fault msg) :
    ∃ out : String,
      runTurn N env t s =
        ({ s with reg := popAgent s.agent_id (strOfErrorResult out) s.reg },
          some (.failed out)) ∧
      (∀ th, s.latest_thinking = some th → out = "执行过程中出错\n\n目前进度:\n" ++ th) ∧
      (s.latest_thinking = none → out = "执行过程中出错") := by
  cases hl : s.latest_thinking with
  | none =>
    refine ⟨"执行过程中出错", ?_, ?_, fun _ => rfl⟩
    · unfold runTurn
      rw [h, hl]
    · intro th hth
      cases hth
  | some th =>
    refine ⟨"执行过程中出错\n\n目前进度:\n" ++ th, ?_, ?_, ?_⟩
    · unfold runTurn
      rw [h, hl]
    · intro th' hth'
      cases hth'
      rfl
    · intro hn
      cases hn

theorem runTurn_batch_eq (N : Nat) (env : Env) (t : Nat) (s : ExecState)
    (calls : List ToolCall) (h : env.turns t = .batch calls) :
    runTurn N env t s =
      (match execBatch calls (compressIfNeeded N env s) with
       | (s2, some r) => (s2, some (RunOutcome.completed r))
       | (s2, none) => (afterBatchConsolidate N env s2, none)) := by
  unfold runTurn
  rw [h]

theorem runTurn_inv (N : Nat) (env : Env) (t : Nat) (s : ExecState) :
    (histInv s → histInv (runTurn N env t s).1) ∧
    (∃ d, (runTurn N env t s).1.fact = s.fact ++ d) := by
  cases hev : env.turns t with
  | fault msg =>
    obtain ⟨out, heq, -, -⟩ := runTurn_fault_eq N env t s msg hev
    rw [heq]
    exact ⟨fun h => h, [], (List.append_nil s.fact).symm⟩
  | batch calls =>
    obtain ⟨hf, hcnt, hrend⟩ := compressIfNeeded_fields N env s
    obtain ⟨ex, h1, h2, h3⟩ := execBatch_growth calls (compressIfNeeded N env s)
    rw [runTurn_batch_eq N env t s calls hev]
    cases hE : execBatch calls (compressIfNeeded N env s) with
    | mk s2 ores =>
      rw [hE] at h1 h2 h3
      have h1' : s2.fact = (compressIfNeeded N env s).fact ++ ex.map recordOf := h1
      have h2' : s2.render = (compressIfNeeded N env s).render ++ ex.map recordOf := h2
      have h3' : s2.counter = (compressIfNeeded N env s).counter + ex.length := h3
      have hinv2 : histInv s → histInv s2 := by
        intro h
        have hinv1 : histInv (compressIfNeeded N env s) := by
          refine ⟨by rw [hf, hcnt]; exact h.1, ?_⟩
          rcases hrend with hr | hr
          · rw [hr, hf]; exact Nat.zero_le _
          · rw [hr, hf]; exact h.2
        constructor
        · rw [h1', h3', List.length_append, List.length_map, hinv1.1]
        · rw [h1', h2', List.length_append, List.length_append, List.length_map]
          exact Nat.add_le_add_right hinv1.2 _
      have hpre2 : ∃ d, s2.fact = s.fact ++ d :=
        ⟨ex.map recordOf, by rw [h1', hf]⟩
      cases ores with
      | some r => exact ⟨hinv2, hpre2⟩
      | none =>
        obtain ⟨haf, hacnt, harend⟩ := afterBatchConsolidate_fields N env s2
        show (histInv s → histInv (afterBatchConsolidate N env s2)) ∧
          ∃ d, (afterBatchConsolidate N env s2).fact = s.fact ++ d
        refine ⟨fun h => ?_, by rw [haf]; exact hpre2⟩
        have hS2 := hinv2 h
        refine ⟨by rw [haf, hacnt]; exact hS2.1, ?_⟩
        rcases harend with hr | hr
        · rw [hr, haf]; exact Nat.zero_le _
        · rw [hr, haf]; exact hS2.2

theorem runLoop_inv (N maxTurns : Nat) (env : Env) (fuel : Nat) (s : ExecState) :
    (histInv s → histInv (runLoop N maxTurns env fuel s).2) ∧
    (∃ d, (runLoop N maxTurns env fuel s).2.fact = s.fact ++ d) := by
  induction fuel generalizing s with
  | zero => exact ⟨fun h => h, [], (List.append_nil s.fact).symm⟩
  | succ fuel ih =>
    rw [runLoop]
    have hts := runTurn_inv N env (maxTurns - (fuel + 1)) s
    cases hT : runTurn N env (maxTurns - (fuel + 1)) s with
    | mk s' oout =>
      rw [hT] at hts
      have hts1 : histInv s → histInv s' := hts.1
      obtain ⟨d1, hd1⟩ := hts.2
      cases oout with
      | some out => exact ⟨hts1, d1, hd1⟩
      | none =>
        obtain ⟨ih1, ih2⟩ := ih s'
        obtain ⟨d2, hd2⟩ := ih2
        exact ⟨fun h => ih1 (hts1 h), d1 ++ d2, by rw [hd2, hd1, List.append_assoc]⟩

theorem run_as_runLoop (hash : String → String) (N maxTurns : Nat) (n u : String)
    (env : Env) (r0 : Registry) :
    ∃ s1 : ExecState, run hash N maxTurns n u env r0 = runLoop N maxTurns env maxTurns s1 ∧
      s1.fact = [] ∧ s1.counter = 0 ∧ s1.render = [] := by
  simp only [run, triggerThinking]
  cases h0 : env.thinking 0 with
  | none => exact ⟨_, rfl, rfl, rfl, rfl⟩
  | some t => exact ⟨_, rfl, rfl, rfl, rfl⟩

end InfiAgent

namespace InfiAgent

/-! ## Claim C1 -/

/-- C1 (counterexample): with interval 10, a single turn whose batch holds 11
non-terminal tool calls — and a thinking oracle that always succeeds — crosses
the boundary at 10, yet no consolidation fires: the loop only checks
`counter % interval == 0` after the whole batch, and `11 % 10 ≠ 0`.
The render history ends the run at length 11, not strictly below the
interval, refuting the claim as stated. -/
theorem boundary_crossing_skips_consolidation_cex :
    (run idHash 10 1 "agent" "input" elevenEnv (emptyReg "t")).2.counter = 11 ∧
    (run idHash 10 1 "agent" "input" elevenEnv (emptyReg "t")).2.render.length = 11 ∧
    ¬ (run idHash 10 1 "agent" "input" elevenEnv (emptyReg "t")).2.render.length < 10 := by
  decide

/-- C1 (amended): consolidation fires after a batch only when the tool-call
counter lands exactly on a multiple of the interval at the end of the batch:
if `(counter + batch length) % N = 0` and the thinking oracle returns a truthy
result, RenderHistory is reset to empty; otherwise the turn leaves
RenderHistory equal to its old value extended by exactly the batch's records,
so it equals the tool calls executed since the last reset only when each
boundary is hit exactly. -/
theorem eager_consolidation_only_on_exact_multiple (N : Nat) (env : Env)
    (calls : List ToolCall) (s : ExecState) (tk : String)
    (hnf : ∀ c ∈ calls, c.name ≠ "final_output")
    (hth : env.thinking s.thinkCount = some tk) :
    (execBatch calls s).2 = none ∧
    ((s.counter + calls.length) % N = 0 →
      (afterBatchConsolidate N env (execBatch calls s).1).render = []) ∧
    ((s.counter + calls.length) % N ≠ 0 →
      (afterBatchConsolidate N env (execBatch calls s).1).render =
        s.render ++ calls.map recordOf) := by
  rw [execBatch_no_final calls s hnf]
  refine ⟨rfl, ?_, ?_⟩
  · intro hmod
    exact afterBatchConsolidate_render_cleared N env { s with fact := s.fact ++ calls.map recordOf, render := s.render ++ calls.map recordOf, counter := s.counter + calls.length } tk hmod hth
  · intro hmod
    exact congrArg ExecState.render (afterBatchConsolidate_skip N env { s with fact := s.fact ++ calls.map recordOf, render := s.render ++ calls.map recordOf, counter := s.counter + calls.length } hmod)

/-- C1 (witness): one non-terminal call from counter 0 with interval 10 does
not land on a boundary, so the render history simply grows by that record. -/
theorem eager_consolidation_only_on_exact_multiple_witness :
    (execBatch [demoCall "step"] demoState).2 = none ∧
    (afterBatchConsolidate 10 elevenEnv (execBatch [demoCall "step"] demoState).1).render =
      demoState.render ++ [demoCall "step"].map recordOf := by
  obtain ⟨h1, -, h3⟩ :=
    eager_consolidation_only_on_exact_multiple 10 elevenEnv [demoCall "step"] demoState "T"
      (by decide) rfl
  exact ⟨h1, h3 (by decide)⟩

/-! ## Claim C2 -/

/-- C2: FactHistory only ever grows (every loop run extends it by a tail, from
any starting state), its length always equals the tool-call counter — which is
bumped exactly once per executed invocation — and stays at least the
RenderHistory length; consolidation leaves FactHistory and the counter
untouched and only resets RenderHistory (to empty, or leaves it as is when the
thinking result is falsy). -/
theorem fact_history_audit_complete (hash : String → String) (N maxTurns : Nat)
    (n u : String) (env : Env) (r0 : Registry) (fuel : Nat) (s : ExecState) :
    (run hash N maxTurns n u env r0).2.fact.length =
      (run hash N maxTurns n u env r0).2.counter ∧
    (run hash N maxTurns n u env r0).2.render.length ≤
      (run hash N maxTurns n u env r0).2.fact.length ∧
    (∃ d, (runLoop N maxTurns env fuel s).2.fact = s.fact ++ d) ∧
    (consolidateNow env s).fact = s.fact ∧
    (consolidateNow env s).counter = s.counter ∧
    ((consolidateNow env s).render = [] ∨ (consolidateNow env s).render = s.render) := by
  obtain ⟨s1, heq, hfa, hcn, hre⟩ := run_as_runLoop hash N maxTurns n u env r0
  have hinv1 : histInv s1 := ⟨by rw [hfa, hcn]; rfl, by rw [hre]; exact Nat.zero_le _⟩
  have hI := (runLoop_inv N maxTurns env maxTurns s1).1 hinv1
  rw [heq]
  exact ⟨hI.1, hI.2, (runLoop_inv N maxTurns env fuel s).2,
    (consolidateNow_fields env s).1, (consolidateNow_fields env s).2.1,
    (consolidateNow_fields env s).2.2⟩

/-! ## Claim C3 -/

/-- C3 (counterexample): push, pop, then push again with identical arguments;
the pop marks the agent completed, and the second `push_agent` unconditionally
overwrites the status record with `status = "running"` — a transition from
completed back to running, refuting the claim as stated. -/
theorem completed_status_reverts_on_repush_cex :
    (alistGet? cexId cexR2.agents_status).map (·.status) = some "completed" ∧
    (alistGet? cexId cexR3.agents_status).map (·.status) = some "running" := by
  decide

/-- C3 (amended): `pop_agent` and `update_thinking` never move a status from
completed back to running (pop re-marks completed, update_thinking touches
only `latest_thinking`), and `push_agent` changes no status record other than
the one of the id it pushes; only re-pushing the very same agent id resets a
completed status to running. -/
theorem status_transition_monotone_outside_repush (aid out th id' : String)
    (s : Registry) (st : AgentStatus) (h : alistGet? id' s.agents_status = some st)
    (hc : st.status = "completed") :
    (∃ st', alistGet? id' (popAgent aid out s).agents_status = some st' ∧
      st'.status = "completed") ∧
    (∃ st', alistGet? id' (updateThinking aid th s).agents_status = some st' ∧
      st'.status = "completed") ∧
    (∀ hash n u, (pushAgent hash n u s).1 ≠ id' →
      alistGet? id' (pushAgent hash n u s).2.agents_status = some st) := by
  refine ⟨?_, ?_, ?_⟩
  · rw [popAgent_agents_status]
    cases hq : alistGet? aid s.agents_status with
    | none => exact ⟨st, h, hc⟩
    | some sta =>
      simp only
      by_cases hid : aid = id'
      · subst hid
        rw [h] at hq
        cases hq
        exact ⟨{ st with status := "completed", final_output := some out },
          by rw [alistGet?_alistSet, if_pos rfl], rfl⟩
      · exact ⟨st, by rw [alistGet?_alistSet, if_neg hid]; exact h, hc⟩
  · cases hq : alistGet? aid s.agents_status with
    | none =>
      rw [updateThinking_none aid th s hq]
      exact ⟨st, h, hc⟩
    | some sta =>
      rw [updateThinking_some aid th s sta hq]
      by_cases hid : aid = id'
      · subst hid
        rw [h] at hq
        cases hq
        exact ⟨{ st with latest_thinking := th },
          by rw [alistGet?_alistSet, if_pos rfl], hc⟩
      · exact ⟨st, by rw [alistGet?_alistSet, if_neg hid]; exact h, hc⟩
  · intro hash n u hne
    rw [pushAgent_fst] at hne
    rw [pushAgent_agents_status, alistGet?_alistSet, if_neg hne]
    exact h

/-- C3 (witness): the completed agent of the counterexample scenario survives
an unrelated pop, an unrelated `update_thinking`, and a push of a different
agent without reverting to running. -/
theorem status_transition_monotone_outside_repush_witness :
    (alistGet? cexId (popAgent "other" "o" cexR2).agents_status).map (·.status) =
      some "completed" ∧
    (alistGet? cexId (updateThinking "other" "th" cexR2).agents_status).map (·.status) =
      some "completed" ∧
    alistGet? cexId (pushAgent idHash "b" "y" cexR2).2.agents_status = some cexStatus := by
  obtain ⟨⟨st1, hg1, hs1⟩, ⟨st2, hg2, hs2⟩, h3⟩ :=
    status_transition_monotone_outside_repush "other" "o" "th" cexId cexR2 cexStatus
      (by decide) rfl
  refine ⟨?_, ?_, h3 idHash "b" "y" (by decide)⟩
  · rw [hg1]
    simp [hs1]
  · rw [hg2]
    simp [hs2]

end InfiAgent

namespace InfiAgent

/-! ## Claim C4 -/

/-- C4: when a batch contains the designated terminal action `final_output`
(after a possibly-empty run of non-terminal calls), the loop executes the
terminal call itself, records it in both histories, pops the agent from the
registry with `tool_result.get("output", "")`, returns the terminal tool's
result as the loop's result, and executes none of the remaining invocations
of the batch (the registry and histories show no trace of them). -/
theorem final_output_short_circuits_batch (N maxTurns fuel : Nat) (env : Env)
    (pre rest : List ToolCall) (c : ToolCall) (s : ExecState)
    (hpre : ∀ x ∈ pre, x.name ≠ "final_output") (hc : c.name = "final_output") :
    execBatch (pre ++ c :: rest) s =
      ({ s with fact := s.fact ++ (pre ++ [c]).map recordOf,
                render := s.render ++ (pre ++ [c]).map recordOf,
                counter := s.counter + (pre.length + 1),
                reg := popAgent s.agent_id c.result.getOutput s.reg },
       some c.result) ∧
    (env.turns (maxTurns - (fuel + 1)) = .batch (pre ++ c :: rest) →
      (runLoop N maxTurns env (fuel + 1) s).1 = .completed c.result) := by
  refine ⟨execBatch_final pre rest c s hpre hc, ?_⟩
  intro henv
  rw [runLoop, runTurn_batch_eq N env (maxTurns - (fuel + 1)) s (pre ++ c :: rest) henv,
    execBatch_final pre rest c _ hpre hc]

/-- C4 (witness): a one-turn run whose only batch is the terminal call returns
that call's result. -/
theorem final_output_short_circuits_batch_witness :
    (runLoop 10 1 finalEnv 1 demoState).1 = RunOutcome.completed finalRes := by
  have h := (final_output_short_circuits_batch 10 1 0 finalEnv [] [] finalCall demoState
    (by intro x hx; cases hx) rfl).2
  exact h rfl

/-! ## Claim C5 -/

/-- C5: an exception raised inside a turn is caught at the loop boundary and
converted into the terminal `error_result`; its output embeds the last known
consolidated state (`self.latest_thinking`) when one exists and a bare error
text otherwise, the agent is popped from the registry with the stringified
synthesized result, and the loop returns the `RunOutcome.failed` value — a
total function result, so no exception escapes. -/
theorem fault_becomes_failed_result (N maxTurns fuel : Nat) (env : Env)
    (s : ExecState) (msg : String)
    (h : env.turns (maxTurns - (fuel + 1)) = .fault msg) :
    ∃ out : String,
      runLoop N maxTurns env (fuel + 1) s =
        (.failed out, { s with reg := popAgent s.agent_id (strOfErrorResult out) s.reg }) ∧
      (∀ th, s.latest_thinking = some th → out = "执行过程中出错\n\n目前进度:\n" ++ th) ∧
      (s.latest_thinking = none → out = "执行过程中出错") ∧
      RunOutcome.statusField (.failed out) = some "error" := by
  obtain ⟨out, heq, hsome, hnone⟩ := runTurn_fault_eq N env (maxTurns - (fuel + 1)) s msg h
  exact ⟨out, by rw [runLoop, heq], hsome, hnone, rfl⟩

/-- C5 (witness): a fault on the first turn of an agent with no consolidated
state yet yields the bare failed result. -/
theorem fault_becomes_failed_result_witness :
    (runLoop 10 1 faultEnv 1 demoState).1 = RunOutcome.failed "执行过程中出错" := by
  obtain ⟨out, heq, -, hnone, -⟩ :=
    fault_becomes_failed_result 10 1 0 faultEnv demoState "boom" rfl
  have h1 : (runLoop 10 1 faultEnv (0 + 1) demoState).1 = RunOutcome.failed out := by
    rw [heq]
  rw [hnone rfl] at h1
  exact h1

/-! ## Claim C6 -/

/-- C6: the agent id returned by `push_agent` depends only on the digest
function and the tuple `(agent_name, task_id, user_input)` — two pushes with
the same arguments against any two registry states of the same task return the
same id — and that id is the digest of the joined tuple truncated to 12
characters, concatenated after the agent name. -/
theorem push_agent_id_deterministic (hash : String → String)
    (agent_name user_input : String) (s s' : Registry) (h : s.task_id = s'.task_id) :
    (pushAgent hash agent_name user_input s).1 = (pushAgent hash agent_name user_input s').1 ∧
    (pushAgent hash agent_name user_input s).1 =
      agent_name ++ "_" ++
        ((hash (agent_name ++ "|" ++ s.task_id ++ "|" ++ user_input)).take 12) := by
  constructor
  · rw [pushAgent_fst, pushAgent_fst, agentIdOf, agentIdOf, h]
  · rfl

/-- C6 (witness): pushing `("a", "x")` into the empty registry of task `"t"`
and into a mutated registry of the same task returns the same concrete id. -/
theorem push_agent_id_deterministic_witness :
    (pushAgent idHash "a" "x" (emptyReg "t")).1 = (pushAgent idHash "a" "x" cexR2).1 ∧
    (pushAgent idHash "a" "x" (emptyReg "t")).1 =
      "a" ++ "_" ++ ((idHash ("a" ++ "|" ++ "t" ++ "|" ++ "x")).take 12) :=
  push_agent_id_deterministic idHash "a" "x" (emptyReg "t") cexR2 rfl

/-! ## Claim C7 -/

/-- C7: the entry `push_agent` appends is parented on the stack top at push
time — `parent_id = none` and `level = 0` when the stack is empty, otherwise
`parent_id` is the top entry's id and `level` its level plus one — and
`pop_agent` only removes entries, never altering a surviving one, so every
live entry keeps the parent/level it was created with. -/
theorem push_parent_is_stack_top (hash : String → String) (n u : String) (s : Registry) :
    (∃ e : StackEntry,
      (pushAgent hash n u s).2.stack = s.stack ++ [e] ∧
      e.agent_id = (pushAgent hash n u s).1 ∧
      (s.stack = [] → e.parent_id = none ∧ e.level = 0) ∧
      (∀ top, s.stack.getLast? = some top →
        e.parent_id = some top.agent_id ∧ e.level = top.level + 1)) ∧
    (∀ a o x, x ∈ (popAgent a o s).stack → x ∈ s.stack) := by
  constructor
  · refine ⟨_, rfl, rfl, ?_, ?_⟩
    · intro h
      simp [h]
    · intro top htop
      simp [htop]
  · intro a o x hx
    simp [popAgent, List.mem_filter] at hx
    exact hx.1

/-- C7 (witness): pushing onto the empty stack creates a root entry with no
parent and level zero. -/
theorem push_parent_is_stack_top_witness :
    ((pushAgent idHash "a" "x" (emptyReg "t")).2.stack.getLast?).map (·.parent_id) =
      some none ∧
    ((pushAgent idHash "a" "x" (emptyReg "t")).2.stack.getLast?).map (·.level) = some 0 := by
  obtain ⟨⟨e, h1, h2, h3, -⟩, -⟩ := push_parent_is_stack_top idHash "a" "x" (emptyReg "t")
  obtain ⟨h4, h5⟩ := h3 rfl
  rw [h1, getLast?_append_singleton]
  simp [h4, h5]

end InfiAgent

namespace InfiAgent

/-! ## Claim C8 -/

/-- C8 (counterexample): a run that exhausts its one-turn ceiling returns the
timeout result whose `"status"` key is `"error"` — exactly the status tag of
the `error_result` literal of the Failed path — so the two terminal outcomes
are not distinguishable by status tag alone. -/
theorem turn_ceiling_status_tag_cex :
    (run idHash 10 1 "a" "x" oneStepEnv (emptyReg "t")).1 =
      RunOutcome.timedOut "执行超过最大轮次限制" "Max turns 1 exceeded" ∧
    RunOutcome.statusField (run idHash 10 1 "a" "x" oneStepEnv (emptyReg "t")).1 =
      RunOutcome.statusField (RunOutcome.failed "执行过程中出错") := by
  decide

/-- C8 (amended): when the turn counter exhausts the configured ceiling, the
loop returns the explicit timeout result carrying the configured ceiling in
its `error_information` field and leaves the whole executor state — the
registry entry included — untouched (no pop); it is distinguishable from a
Failed result by that extra field, not by its status tag, which is the same
`"error"` both carry. -/
theorem turn_ceiling_result_behavior (N maxTurns : Nat) (env : Env) (s : ExecState) :
    (runLoop N maxTurns env 0 s).1 =
      RunOutcome.timedOut "执行超过最大轮次限制"
        ("Max turns " ++ toString maxTurns ++ " exceeded") ∧
    (runLoop N maxTurns env 0 s).2 = s ∧
    RunOutcome.statusField (runLoop N maxTurns env 0 s).1 = some "error" := by
  exact ⟨rfl, rfl, rfl⟩

/-! ## Claim C9 -/

/-- C9: two consecutive `push_agent` calls with identical arguments return the
identical agent id, and pushing never introduces a duplicate into any
`children` list: every append is guarded by a membership check, so if every
children list is duplicate-free before the two pushes it stays duplicate-free
after them. -/
theorem repeated_push_children_nodup (hash : String → String) (n u : String)
    (s : Registry) (h : childrenNodup s.hierarchy) :
    (pushAgent hash n u s).1 = (pushAgent hash n u (pushAgent hash n u s).2).1 ∧
    childrenNodup (pushAgent hash n u (pushAgent hash n u s).2).2.hierarchy := by
  constructor
  · rw [pushAgent_fst, pushAgent_fst, pushAgent_task_id]
  · exact pushAgent_childrenNodup _ _ _ _ (pushAgent_childrenNodup _ _ _ _ h)

/-- C9 (witness): double-pushing `("a", "x")` on the empty task registry gives
equal ids and duplicate-free children lists. -/
theorem repeated_push_children_nodup_witness :
    (pushAgent idHash "a" "x" (emptyReg "t")).1 =
      (pushAgent idHash "a" "x" (pushAgent idHash "a" "x" (emptyReg "t")).2).1 ∧
    childrenNodup (pushAgent idHash "a" "x" (pushAgent idHash "a" "x" (emptyReg "t")).2).2.hierarchy :=
  repeated_push_children_nodup idHash "a" "x" (emptyReg "t")
    (fun _ _ hk => Option.noConfusion hk)

/-! ## Claim C10 -/

/-- C10 (counterexample): after two identical pushes onto an empty task, the
pushed agent's `HierarchyEdge` does NOT record the agent as its own parent —
the edge is reused, not rewritten, so its `parent` stays `none` from the first
push — although its `children` list does come to contain its own id. -/
theorem edge_parent_not_self_cex :
    (alistGet? cexId dpR2.hierarchy).map (·.parent) = some none ∧
    ¬ (alistGet? cexId dpR2.hierarchy).map (·.parent) = some (some cexId) ∧
    (alistGet? cexId dpR2.hierarchy).map (·.children) = some [cexId] := by
  decide

/-- C10 (amended): push always takes the current stack top as parent even when
that top carries the same agent id: after two consecutive pushes with
identical arguments (and an id new to the hierarchy document) the second stack
entry and the overwritten `AgentStatus` record the agent as its own parent,
and the agent's own `children` set comes to contain its own id — a self-loop,
so the hierarchy graph is not a tree — while the `HierarchyEdge.parent` field
itself is not updated and keeps the parent of the first push. -/
theorem double_push_self_loop (hash : String → String) (n u : String) (s : Registry)
    (hfresh : alistGet? (agentIdOf hash s.task_id n u) s.hierarchy = none) :
    ((pushAgent hash n u (pushAgent hash n u s).2).2.stack.getLast?).map (·.parent_id) =
      some (some (agentIdOf hash s.task_id n u)) ∧
    (alistGet? (agentIdOf hash s.task_id n u)
        (pushAgent hash n u (pushAgent hash n u s).2).2.agents_status).map (·.parent_id) =
      some (some (agentIdOf hash s.task_id n u)) ∧
    (∃ e : HierarchyEdge,
      alistGet? (agentIdOf hash s.task_id n u)
        (pushAgent hash n u (pushAgent hash n u s).2).2.hierarchy = some e ∧
      agentIdOf hash s.task_id n u ∈ e.children ∧
      e.parent = (s.stack.getLast?).map (·.agent_id)) := by
  have hid2 : agentIdOf hash (pushAgent hash n u s).2.task_id n u =
      agentIdOf hash s.task_id n u := by rw [pushAgent_task_id]
  have hp1 : pushParentOf (pushAgent hash n u s).2 = some (agentIdOf hash s.task_id n u) := by
    unfold pushParentOf
    rw [pushAgent_stack', getLast?_append_singleton]
    rfl
  refine ⟨?_, ?_, ?_⟩
  · rw [pushAgent_stack', getLast?_append_singleton]
    simp [hp1]
  · rw [pushAgent_agents_status, hid2, alistGet?_alistSet, if_pos rfl]
    simp [hp1]
  · have hget1 : alistGet? (agentIdOf hash s.task_id n u)
        (alistSet (agentIdOf hash s.task_id n u)
          { parent := pushParentOf s, children := [], level := pushLevelOf s } s.hierarchy) =
        some { parent := pushParentOf s, children := [], level := pushLevelOf s } := by
      rw [alistGet?_alistSet, if_pos rfl]
    obtain ⟨e1, he1, he1p, he1l, he1c⟩ :=
      alistGet?_pushChildAppend_self (agentIdOf hash s.task_id n u) (pushParentOf s)
        _ _ hget1
    have hr1 : alistGet? (agentIdOf hash s.task_id n u) (pushAgent hash n u s).2.hierarchy =
        some e1 := by
      rw [pushAgent_hierarchy, pushEdgeCreate_fresh _ _ _ _ hfresh]
      exact he1
    obtain ⟨e2, he2, he2p, he2l, he2c⟩ :=
      alistGet?_pushChildAppend_self_loop (agentIdOf hash s.task_id n u) _ _ hr1
    refine ⟨e2, ?_, he2c, ?_⟩
    · rw [pushAgent_hierarchy, hid2, hp1,
        pushEdgeCreate_present _ _ _ _ _ hr1]
      exact he2
    · rw [he2p, he1p]
      rfl

/-- C10 (witness): the self-parenting stack entry and status of the amended
claim, at the concrete double push of the counterexample scenario. -/
theorem double_push_self_loop_witness :
    ((pushAgent idHash "a" "x" (pushAgent idHash "a" "x" (emptyReg "t")).2).2.stack.getLast?).map (·.parent_id) =
      some (some (agentIdOf idHash "t" "a" "x")) ∧
    (alistGet? (agentIdOf idHash "t" "a" "x")
        (pushAgent idHash "a" "x" (pushAgent idHash "a" "x" (emptyReg "t")).2).2.agents_status).map (·.parent_id) =
      some (some (agentIdOf idHash "t" "a" "x")) := by
  obtain ⟨h1, h2, -⟩ := double_push_self_loop idHash "a" "x" (emptyReg "t") rfl
  exact ⟨h1, h2⟩

end InfiAgent
